import Mathlib

/-!
# Verification of twurple's emote-offset parser and EventSub sweep

Shallow embedding of:
* `parseEmoteOffsets` (src/unnamed/part_000) — parses the compact serialized
  emote-placement string into a `Map<string, string[]>`;
* `_deleteSubscriptionsWithCondition` / `deleteBrokenSubscriptions`
  (HelixEventSubApi.ts) — the conditional bulk-unsubscribe sweep;
* the guard at the top of `createSubscription` (HelixEventSubApi.ts).

JavaScript strings are modelled as `List Char`; JS `String.prototype.split`
with a single-character separator coincides with `List.splitOn`, and the
two-argument form `s.split(sep, 2)` keeps only the first two parts, i.e.
`(l.splitOn sep).take 2`.  A JS `Map` built from a list of key/value pairs is
modelled as an ordered association list with unique keys (`mapOfPairs`):
setting an existing key overwrites its value in place, a fresh key is
appended.
-/

/-- A JavaScript string, as its sequence of characters. -/
abbrev JStr := List Char

/-- JS `Map.prototype.set` on an ordered association list with unique keys:
an existing key has its value replaced in place, a new key is appended at
the end. -/
def mapInsert : List (JStr × List JStr) → JStr → List JStr → List (JStr × List JStr)
  | [], k, v => [(k, v)]
  | p :: m, k, v => if p.1 = k then (k, v) :: m else p :: mapInsert m k v

/-- JS `new Map(pairs)`: insert the pairs in order. -/
def mapOfPairs (pairs : List (JStr × List JStr)) : List (JStr × List JStr) :=
  pairs.foldl (fun m p => mapInsert m p.1 p.2) []

/-- JS `Map.prototype.get` (as an `Option`): the pair with the key, keys
being unique in a map. -/
def mapGet : List (JStr × List JStr) → JStr → Option (List JStr)
  | [], _ => none
  | p :: m, k => if p.1 = k then some p.2 else mapGet m k

/-- One entry of the `/`-separated input, as processed by the arrow function
inside `parseEmoteOffsets`:
`const [emoteId, placements] = emote.split(':', 2); if (!placements) return null;
return [emoteId, placements.split(',')]`. -/
def parseEntry (emote : JStr) : Option (JStr × List JStr) :=
  match (emote.splitOn ':').take 2 with
  | [emoteId, placements] =>
      if placements.isEmpty then none
      else some (emoteId, placements.splitOn ',')
  | _ => none

/-- The body of `parseEmoteOffsets` after the emptiness guard:
`new Map(emotes.split('/').map(...).filter(e => e !== null))`. -/
def parseEmoteOffsetsCore (s : JStr) : List (JStr × List JStr) :=
  mapOfPairs ((s.splitOn '/').filterMap parseEntry)

/-- `parseEmoteOffsets(emotes?: string): Map<string, string[]>`.
`!emotes` is true exactly for an absent argument (`none`) and the empty
string, and in those cases the empty map is returned. -/
def parseEmoteOffsets (emotes : Option String) : List (String × List String) :=
  match emotes with
  | none => []
  | some s =>
      if s = "" then []
      else
        (parseEmoteOffsetsCore s.data).map
          (fun p => (String.mk p.1, p.2.map String.mk))

/-- The well-formed input the spec's universal statements quantify over:
the `/`-join of entries `id:p1,p2,...`. -/
def encodeEntry (e : JStr × List JStr) : JStr :=
  e.1 ++ [':'] ++ List.intercalate [','] e.2

/-- Join the encoded entries with `/`. -/
def encodeInput (entries : List (JStr × List JStr)) : JStr :=
  List.intercalate ['/'] (entries.map encodeEntry)

/-- Well-formedness of one `(emoteId, placements)` entry: the id contains
neither separator that is consumed before it (`/`, `:`), the placement list
is non-empty, and each placement is a non-empty string free of all three
separators. -/
@[reducible] def WFEntry (e : JStr × List JStr) : Prop :=
  ('/' ∉ e.1 ∧ ':' ∉ e.1) ∧ e.2 ≠ [] ∧
    ∀ p ∈ e.2, p ≠ [] ∧ '/' ∉ p ∧ ',' ∉ p ∧ ':' ∉ p

/-- `strToJ` converts a `(emoteId, placements)` pair of Lean strings into the
character-level representation. -/
def strToJ (e : String × List String) : JStr × List JStr :=
  (e.1.data, e.2.map String.data)

/-- String-level version of `encodeInput`. -/
def encodeInputStr (entries : List (String × List String)) : String :=
  String.mk (encodeInput (entries.map strToJ))

/-- Well-formedness of a string-level entry. -/
@[reducible] def WFEntryStr (e : String × List String) : Prop :=
  WFEntry (strToJ e)

/-- JS `Map.prototype.get` on the string-level result map. -/
def mapGetStr : List (String × List String) → String → Option (List String)
  | [], _ => none
  | p :: m, k => if p.1 = k then some p.2 else mapGetStr m k

/-- Last-occurrence lookup in a raw pair list: the value of the last pair
carrying the given key, if any. -/
def lastVal : List (JStr × List JStr) → JStr → Option (List JStr)
  | [], _ => none
  | p :: l, k =>
      match lastVal l k with
      | some v => some v
      | none => if p.1 = k then some p.2 else none

/-! ## Checked variant of the parser

`parseEmoteOffsetsChecked` re-traces `parseEmoteOffsets` while modelling the
one operation that could throw in JavaScript: the method call
`placements.split(',')`, which throws a `TypeError` when `placements` is
`undefined` (i.e. when `emote.split(':', 2)` produced fewer than two parts).
The `if (!placements)` guard is modelled by `jsFalsy`, true for `undefined`
and for the empty string. -/

/-- JS falsiness of an optional string: `undefined` and `""` are falsy. -/
def jsFalsy (o : Option JStr) : Bool :=
  match o with
  | none => true
  | some s => s.isEmpty

/-- JS `s.split(sep)` where `s` may be `undefined`: throws on `undefined`. -/
def jsSplitChecked (o : Option JStr) (sep : Char) : Except String (List JStr) :=
  match o with
  | none => .error "TypeError: cannot call split on undefined"
  | some s => .ok (s.splitOn sep)

/-- The entry arrow function with the throw hazard explicit.  `emoteId?` and
`placements?` are the two destructured components of `emote.split(':', 2)`
(`none` = `undefined`).  An `undefined` emoteId reaching the key position is
modelled as an error as well (it cannot be represented as a string); the
correctness theorem shows neither error branch is ever taken. -/
def parseEntryChecked (emote : JStr) : Except String (Option (JStr × List JStr)) :=
  let parts := (emote.splitOn ':').take 2
  let emoteId? := parts.get? 0
  let placements? := parts.get? 1
  if jsFalsy placements? then .ok none
  else
    match jsSplitChecked placements? ',' with
    | .error e => .error e
    | .ok ps =>
        match emoteId? with
        | none => .error "unreachable: undefined emoteId"
        | some emoteId => .ok (some (emoteId, ps))

/-- `parseEmoteOffsets` with the throw hazards explicit. -/
def parseEmoteOffsetsChecked (emotes : Option String) :
    Except String (List (String × List String)) :=
  match emotes with
  | none => .ok []
  | some s =>
      if s = "" then .ok []
      else do
        let entries ← (s.data.splitOn '/').mapM parseEntryChecked
        .ok ((mapOfPairs (entries.filterMap id)).map
          (fun p => (String.mk p.1, p.2.map String.mk)))

/-! ## The conditional bulk-unsubscribe sweep

`_deleteSubscriptionsWithCondition(cond?)` iterates the paginated
subscription source and, for each yielded record, awaits
`sub.unsubscribe()` whenever `!cond || cond(sub)`.  The loop body is
strictly sequential, so the sweep is a fold over the stream of events the
source produces.  A record is modelled by its `status` and by whether its
`unsubscribe()` call succeeds; a failure of the source to produce the next
page is a `sourceFail` event in the stream. -/

/-- A subscription record as seen by the sweep: its `status` string and the
outcome of its `unsubscribe()` action. -/
structure SubRecord where
  status : String
  unsubOk : Bool
deriving DecidableEq

/-- One event of the item stream the paginated source produces. -/
inductive StreamItem where
  | item : SubRecord → StreamItem
  | sourceFail : StreamItem
deriving DecidableEq

/-- `!cond || cond(sub)`. -/
def condHolds (cond : Option (SubRecord → Bool)) (r : SubRecord) : Bool :=
  match cond with
  | none => true
  | some c => c r

/-- How a sweep terminates abnormally. -/
inductive SweepError where
  | sourceError : SweepError
  | unsubError : SubRecord → SweepError
deriving DecidableEq

/-- The observable outcome of a sweep: the records the loop reached (and so
evaluated the condition on), the records whose `unsubscribe()` was invoked,
both in order, and the propagated failure if any. -/
structure SweepResult where
  evaluated : List SubRecord
  unsubbed : List SubRecord
  error : Option SweepError
deriving DecidableEq

/-- `_deleteSubscriptionsWithCondition`: the `for await` loop over the
stream.  An unsubscribe failure or a source failure propagates immediately
and nothing further is processed. -/
def sweepRun (cond : Option (SubRecord → Bool)) : List StreamItem → SweepResult
  | [] => ⟨[], [], none⟩
  | .sourceFail :: _ => ⟨[], [], some .sourceError⟩
  | .item r :: rest =>
      if condHolds cond r then
        if r.unsubOk then
          let res := sweepRun cond rest
          ⟨r :: res.evaluated, r :: res.unsubbed, res.error⟩
        else ⟨[r], [r], some (.unsubError r)⟩
      else
        let res := sweepRun cond rest
        ⟨r :: res.evaluated, res.unsubbed, res.error⟩

/-- The predicate `deleteBrokenSubscriptions` passes to the sweep:
`sub.status !== 'enabled' && sub.status !== 'webhook_callback_verification_pending'`. -/
def brokenCond (r : SubRecord) : Bool :=
  r.status != "enabled" && r.status != "webhook_callback_verification_pending"

/-- `deleteBrokenSubscriptions()`. -/
def deleteBrokenSubscriptionsRun (stream : List StreamItem) : SweepResult :=
  sweepRun (some brokenCond) stream

/-- `deleteAllSubscriptions()`. -/
def deleteAllSubscriptionsRun (stream : List StreamItem) : SweepResult :=
  sweepRun none stream

/-- A finite paginated source that yields all its pages without failing,
flattened to the item stream the `for await` loop consumes. -/
def streamOfPages (pages : List (List SubRecord)) : List StreamItem :=
  pages.flatten.map StreamItem.item

/-! ## The `createSubscription` guard

`createSubscription` computes `usesAppAuth = transport.method === 'webhook'`
and throws before building the request body whenever
`!usesAppAuth && !user`.  Users are modelled by their extracted id string. -/

/-- The transport options, of which only `method` is examined by the guard. -/
structure TransportOptions where
  method : String
deriving DecidableEq

/-- What `createSubscription` does up to and including the `callApi` call:
either it throws (no request is issued), or it issues exactly one request
with the given `forceType`, `scopes` and `userId` fields. -/
inductive CreateSubOutcome where
  | thrown : String → CreateSubOutcome
  | request : String → Option (List String) → Option String → CreateSubOutcome
deriving DecidableEq

/-- The guard and request dispatch of `createSubscription`. -/
def createSubscriptionRun (transport : TransportOptions) (user : Option String)
    (requiredScopeSet : Option (List String)) : CreateSubOutcome :=
  let usesAppAuth := transport.method == "webhook"
  let scopes := if usesAppAuth then none else requiredScopeSet
  if !usesAppAuth && user.isNone then
    .thrown ("Transport " ++ transport.method ++
      " can only handle subscriptions with user context")
  else
    .request (if usesAppAuth then "app" else "user") scopes user

/-! ## Concrete inputs used by the witness theorems -/

/-- The duplicate-id input used to witness C4. -/
def demoEntriesC4 : List (JStr × List JStr) :=
  [(String.data "25", [String.data "0-4"]), (String.data "25", [String.data "6-10"])]

/-- The raw entries used to witness C3: one colonless entry, one entry with
an empty placements segment, and one well-formed sibling. -/
def demoEntriesC3 : List JStr :=
  [String.data "25", String.data "25:", String.data "1902:6-10"]

/-- The 3-page source of the C2 scenario: page 2's second record has status
`enabled`, every unsubscribe succeeds. -/
def demoPages : List (List SubRecord) :=
  [[⟨"authorization_revoked", true⟩, ⟨"notification_failures_exceeded", true⟩],
   [⟨"user_removed", true⟩, ⟨"enabled", true⟩],
   [⟨"version_removed", true⟩]]

/-- The records of `demoPages` in page order. -/
def demoSubs : List SubRecord := demoPages.flatten

/-- The records of the C6 scenario: the second record's unsubscribe fails,
a third record follows in the stream. -/
def demoRecOk : SubRecord := ⟨"websocket_disconnected", true⟩

/-- The failing record of the C6 scenario. -/
def demoRecFail : SubRecord := ⟨"websocket_disconnected", false⟩

/-- The record after the failure point in the C6 scenario. -/
def demoRecAfter : SubRecord := ⟨"websocket_disconnected", true⟩

/-! ## Split/join helper lemmas -/

theorem intercalate_one {α : Type} (sep x : List α) :
    List.intercalate sep [x] = x := by
  simp [List.intercalate]

theorem intercalate_cons₂ {α : Type} (sep x y : List α) (t : List (List α)) :
    List.intercalate sep (x :: y :: t) = x ++ sep ++ List.intercalate sep (y :: t) := by
  simp [List.intercalate, List.intersperse_cons_cons, List.append_assoc]

theorem mem_intercalate {α : Type} {c : α} {sep : List α} :
    ∀ {ls : List (List α)}, c ∈ List.intercalate sep ls → c ∈ sep ∨ ∃ l ∈ ls, c ∈ l
  | [], h => by simp [List.intercalate] at h
  | [x], h => by
      rw [intercalate_one] at h
      exact Or.inr ⟨x, by simp, h⟩
  | x :: y :: t, h => by
      rw [intercalate_cons₂] at h
      rcases List.mem_append.1 h with h' | h'
      · rcases List.mem_append.1 h' with h'' | h''
        · exact Or.inr ⟨x, by simp, h''⟩
        · exact Or.inl h''
      · rcases mem_intercalate h' with h'' | ⟨l, hl, hcl⟩
        · exact Or.inl h''
        · exact Or.inr ⟨l, by simp [List.mem_cons] at hl ⊢; tauto, hcl⟩

theorem splitOn_first {α : Type} [DecidableEq α] (xs : List α) (x : α)
    (hx : x ∉ xs) (as : List α) :
    (xs ++ x :: as).splitOn x = xs :: as.splitOn x := by
  rw [List.splitOn, List.splitOn]
  refine List.splitOnP_first _ _ ?_ x (by simp) as
  intro y hy hbeq
  rw [beq_iff_eq] at hbeq
  subst hbeq
  exact hx hy

theorem splitOn_single {α : Type} [DecidableEq α] (xs : List α) (x : α)
    (hx : x ∉ xs) : xs.splitOn x = [xs] := by
  rw [List.splitOn]
  refine List.splitOnP_eq_single _ _ ?_
  intro y hy hbeq
  rw [beq_iff_eq] at hbeq
  subst hbeq
  exact hx hy

/-! ## Lemmas about `parseEntry` -/

theorem parseEntry_nil : parseEntry [] = none := rfl

theorem parseEntry_no_colon (e : JStr) (h : ':' ∉ e) : parseEntry e = none := by
  rw [parseEntry, splitOn_single e ':' h]
  rfl

theorem parseEntry_trailing_colon (idPart : JStr) (h : ':' ∉ idPart) :
    parseEntry (idPart ++ [':']) = none := by
  have hsplit : (idPart ++ [':']).splitOn ':' = [idPart, []] := by
    have := splitOn_first idPart ':' h []
    simpa using this
  rw [parseEntry, hsplit]
  rfl

theorem intercalate_comma_ne_nil (ps : List JStr) (hps : ps ≠ [])
    (hhead : ∀ p ∈ ps, p ≠ []) : List.intercalate [','] ps ≠ [] := by
  match ps, hps with
  | [p], _ => simpa [intercalate_one] using hhead p (by simp)
  | p :: q :: t, _ =>
      rw [intercalate_cons₂]
      intro hcontra
      have := congrArg List.length hcontra
      simp [List.length_append] at this

theorem colon_not_mem_csv (ps : List JStr) (hps : ∀ p ∈ ps, ':' ∉ p) :
    ':' ∉ List.intercalate [','] ps := by
  intro hmem
  rcases mem_intercalate hmem with h | ⟨l, hl, hcl⟩
  · simp at h
  · exact hps l hl hcl

theorem parseEntry_encode (e : JStr × List JStr) (he : WFEntry e) :
    parseEntry (encodeEntry e) = some e := by
  obtain ⟨⟨-, hid⟩, hne, hp⟩ := he
  have hcsv_ne : List.intercalate [','] e.2 ≠ [] :=
    intercalate_comma_ne_nil e.2 hne (fun p hp' => (hp p hp').1)
  have hcsv_colon : ':' ∉ List.intercalate [','] e.2 :=
    colon_not_mem_csv e.2 (fun p hp' => (hp p hp').2.2.2)
  have hsplit : (encodeEntry e).splitOn ':' = [e.1, List.intercalate [','] e.2] := by
    have h1 : encodeEntry e = e.1 ++ ':' :: List.intercalate [','] e.2 := by
      simp [encodeEntry]
    rw [h1, splitOn_first e.1 ':' hid, splitOn_single _ ':' hcsv_colon]
  have hcsv_split : (List.intercalate [','] e.2).splitOn ',' = e.2 := by
    have := List.splitOn_intercalate e.2 ','
      (fun l hl => (hp l hl).2.2.1) hne
    simpa [List.intercalate] using this
  rw [parseEntry, hsplit]
  simp [List.isEmpty_iff, hcsv_ne, hcsv_split]

theorem filterMap_some_of_forall {α : Type} (f : α → Option α) :
    ∀ (l : List α), (∀ a ∈ l, f a = some a) → l.filterMap f = l
  | [], _ => rfl
  | a :: t, h => by
      rw [List.filterMap_cons, h a (by simp),
        filterMap_some_of_forall f t (fun b hb => h b (by simp [hb]))]

theorem slash_not_mem_encodeEntry (e : JStr × List JStr) (he : WFEntry e) :
    '/' ∉ encodeEntry e := by
  obtain ⟨⟨hslash, -⟩, -, hp⟩ := he
  intro hmem
  rcases List.mem_append.1 hmem with h1 | h2
  · rcases List.mem_append.1 h1 with h1a | h1b
    · exact hslash h1a
    · simp at h1b
  · rcases mem_intercalate h2 with hc | ⟨l, hl, hcl⟩
    · simp at hc
    · exact (hp l hl).2.1 hcl

theorem encodeInput_ne_nil (e : JStr × List JStr) (t : List (JStr × List JStr)) :
    encodeInput (e :: t) ≠ [] := by
  cases t with
  | nil =>
      rw [encodeInput]
      simp [intercalate_one, encodeEntry]
  | cons f t' =>
      rw [encodeInput]
      simp [intercalate_cons₂]

theorem parseCore_encode (entries : List (JStr × List JStr))
    (hwf : ∀ e ∈ entries, WFEntry e) :
    parseEmoteOffsetsCore (encodeInput entries) = mapOfPairs entries := by
  cases entries with
  | nil => rfl
  | cons e t =>
      have hsplit : (encodeInput (e :: t)).splitOn '/' = (e :: t).map encodeEntry := by
        rw [encodeInput]
        refine List.splitOn_intercalate _ '/' ?_ (by simp)
        intro l hl
        rcases List.mem_map.1 hl with ⟨a, ha, rfl⟩
        exact slash_not_mem_encodeEntry a (hwf a ha)
      rw [parseEmoteOffsetsCore, hsplit, List.filterMap_map]
      congr 1
      exact filterMap_some_of_forall _ _ (fun a ha => parseEntry_encode a (hwf a ha))

/-! ## Lemmas about the `Map` model -/

theorem mapGet_mapInsert (m : List (JStr × List JStr)) (k : JStr) (v : List JStr)
    (q : JStr) :
    mapGet (mapInsert m k v) q = if q = k then some v else mapGet m q := by
  induction m with
  | nil =>
      by_cases h : q = k
      · subst h
        simp [mapInsert, mapGet]
      · simp [mapInsert, mapGet, h, Ne.symm h]
  | cons p m ih =>
      by_cases hpk : p.1 = k
      · by_cases hq : q = k
        · subst hq
          simp [mapInsert, mapGet, hpk]
        · have hk : ¬ k = q := fun hh => hq hh.symm
          have hpq : ¬ p.1 = q := by rw [hpk]; exact hk
          simp [mapInsert, mapGet, hpk, hq, hk, hpq]
      · by_cases hq : q = k
        · subst hq
          simp [mapInsert, mapGet, hpk, ih]
        · by_cases hpq : p.1 = q <;> simp [mapInsert, mapGet, hpk, hpq, ih, hq]

theorem mapInsert_absent (m : List (JStr × List JStr)) (k : JStr) (v : List JStr)
    (h : ∀ p ∈ m, p.1 ≠ k) : mapInsert m k v = m ++ [(k, v)] := by
  induction m with
  | nil => rfl
  | cons p m ih =>
      have hp : ¬ p.1 = k := h p (by simp)
      simp [mapInsert, hp, ih (fun q hq => h q (by simp [hq]))]

theorem mapGet_foldl (l : List (JStr × List JStr)) :
    ∀ (acc : List (JStr × List JStr)) (k : JStr),
      mapGet (l.foldl (fun m p => mapInsert m p.1 p.2) acc) k
        = match lastVal l k with
          | some v => some v
          | none => mapGet acc k := by
  induction l with
  | nil =>
      intro acc k
      simp [lastVal]
  | cons p t ih =>
      intro acc k
      rw [List.foldl_cons, ih]
      cases h : lastVal t k with
      | some v => simp [lastVal, h]
      | none =>
          rw [mapGet_mapInsert]
          by_cases hk : k = p.1
          · subst hk
            simp [lastVal, h]
          · have hpk : ¬ p.1 = k := fun hh => hk hh.symm
            simp [lastVal, h, hk, hpk]

theorem mapGet_mapOfPairs (l : List (JStr × List JStr)) (k : JStr) :
    mapGet (mapOfPairs l) k = lastVal l k := by
  rw [mapOfPairs, mapGet_foldl]
  cases h : lastVal l k <;> simp [mapGet]

theorem foldl_mapInsert_nodup (l : List (JStr × List JStr)) :
    ∀ acc, (∀ p ∈ acc, p.1 ∉ l.map Prod.fst) → (l.map Prod.fst).Nodup →
      l.foldl (fun m p => mapInsert m p.1 p.2) acc = acc ++ l := by
  induction l with
  | nil =>
      intro acc _ _
      simp
  | cons p t ih =>
      intro acc hdisj hnd
      rw [List.foldl_cons]
      have habs : ∀ q ∈ acc, q.1 ≠ p.1 := fun q hq hh => hdisj q hq (by simp [hh])
      rw [mapInsert_absent acc p.1 p.2 habs]
      simp only [List.map_cons, List.nodup_cons] at hnd
      have hdisj' : ∀ q ∈ acc ++ [(p.1, p.2)], q.1 ∉ t.map Prod.fst := by
        intro q hq
        rcases List.mem_append.1 hq with hq' | hq'
        · intro hmem
          exact hdisj q hq' (by simp [hmem])
        · simp only [List.mem_singleton] at hq'
          subst hq'
          simpa using hnd.1
      rw [ih (acc ++ [(p.1, p.2)]) hdisj' hnd.2]
      simp

theorem mapOfPairs_nodup (l : List (JStr × List JStr))
    (hnd : (l.map Prod.fst).Nodup) : mapOfPairs l = l := by
  rw [mapOfPairs, foldl_mapInsert_nodup l [] (by simp) hnd]
  simp

/-! ## String-level helper lemmas -/

theorem parseEmoteOffsets_some (s : String) (h : s ≠ "") :
    parseEmoteOffsets (some s)
      = (parseEmoteOffsetsCore s.data).map
          (fun p => (String.mk p.1, p.2.map String.mk)) := by
  simp [parseEmoteOffsets, h]

theorem map_toStr_strToJ (l : List (String × List String)) :
    (l.map strToJ).map (fun p => (String.mk p.1, p.2.map String.mk)) = l := by
  rw [List.map_map]
  refine List.map_congr_left ?_ |>.trans (List.map_id l)
  intro a _
  show (String.mk a.1.data, (a.2.map String.data).map String.mk) = a
  rw [List.map_map]
  have h2 : a.2.map (String.mk ∘ String.data) = a.2 := by
    refine (List.map_congr_left ?_).trans (List.map_id a.2)
    intro s _
    rfl
  rw [h2]

theorem encodeInputStr_ne_empty (e : String × List String)
    (t : List (String × List String)) : encodeInputStr (e :: t) ≠ "" := by
  rw [encodeInputStr]
  intro hcontra
  apply encodeInput_ne_nil (strToJ e) (t.map strToJ)
  have := congrArg String.data hcontra
  simpa using this

/-! ## Claim theorems for the emote-offset parser -/

/-- C1: for every well-formed input of the form `id1:p1,p2/id2:p3` (ids
pairwise distinct), `parseEmoteOffsets` returns a map whose keys are exactly
the listed emoteIds, each mapped to its placement strings in input order;
in particular on `"25:0-4,12-16/1902:6-10"` it returns
`{"25" -> ["0-4","12-16"], "1902" -> ["6-10"]}`. -/
theorem claim_C1 (entries : List (String × List String))
    (hwf : ∀ e ∈ entries, WFEntryStr e)
    (hnd : (entries.map Prod.fst).Nodup) :
    parseEmoteOffsets (some (encodeInputStr entries)) = entries
    ∧ parseEmoteOffsets (some "25:0-4,12-16/1902:6-10")
        = [("25", ["0-4", "12-16"]), ("1902", ["6-10"])] := by
  refine ⟨?_, by decide⟩
  cases entries with
  | nil => rfl
  | cons e t =>
      have hs : encodeInputStr (e :: t) ≠ "" := encodeInputStr_ne_empty e t
      rw [parseEmoteOffsets_some _ hs]
      have hdata : (encodeInputStr (e :: t)).data
          = encodeInput ((e :: t).map strToJ) := rfl
      rw [hdata]
      have hwfj : ∀ a ∈ (e :: t).map strToJ, WFEntry a := by
        intro a ha
        rcases List.mem_map.1 ha with ⟨b, hb, rfl⟩
        exact hwf b hb
      rw [parseCore_encode _ hwfj]
      have hndj : (((e :: t).map strToJ).map Prod.fst).Nodup := by
        rw [List.map_map]
        have hcomp : (Prod.fst ∘ strToJ) = (String.data ∘ Prod.fst) := rfl
        rw [hcomp, ← List.map_map]
        refine List.Nodup.map ?_ hnd
        intro a b hab
        exact congrArg String.mk hab
      rw [mapOfPairs_nodup _ hndj]
      exact map_toStr_strToJ (e :: t)

/-- C1 witness: the universal statement applied at the two-entry input of
the scenario. -/
theorem claim_C1_witness :
    (∀ e ∈ [("25", ["0-4", "12-16"]), ("1902", ["6-10"])], WFEntryStr e)
    ∧ ([("25", ["0-4", "12-16"]), ("1902", ["6-10"])].map
        (Prod.fst (α := String) (β := List String))).Nodup
    ∧ (parseEmoteOffsets
          (some (encodeInputStr [("25", ["0-4", "12-16"]), ("1902", ["6-10"])]))
        = [("25", ["0-4", "12-16"]), ("1902", ["6-10"])]
      ∧ parseEmoteOffsets (some "25:0-4,12-16/1902:6-10")
        = [("25", ["0-4", "12-16"]), ("1902", ["6-10"])]) :=
  ⟨by decide, by decide, claim_C1 _ (by decide) (by decide)⟩

/-- C4: on well-formed inputs, the value stored for an emoteId is the
placements of the last entry carrying that id (later occurrences overwrite
earlier ones); in particular `parseEmoteOffsets "25:0-4/25:6-10"` is
`{"25" -> ["6-10"]}`. -/
theorem claim_C4 (entries : List (JStr × List JStr))
    (hwf : ∀ e ∈ entries, WFEntry e) (k : JStr) :
    mapGet (parseEmoteOffsetsCore (encodeInput entries)) k = lastVal entries k
    ∧ parseEmoteOffsets (some "25:0-4/25:6-10") = [("25", ["6-10"])] := by
  refine ⟨?_, by decide⟩
  rw [parseCore_encode entries hwf, mapGet_mapOfPairs]

/-- C4 witness: the universal statement applied at a duplicate-id input. -/
theorem claim_C4_witness :
    (∀ e ∈ demoEntriesC4, WFEntry e)
    ∧ (mapGet (parseEmoteOffsetsCore (encodeInput demoEntriesC4)) (String.data "25")
        = lastVal demoEntriesC4 (String.data "25")
      ∧ parseEmoteOffsets (some "25:0-4/25:6-10") = [("25", ["6-10"])]) :=
  ⟨by decide, claim_C4 demoEntriesC4 (by decide) (String.data "25")⟩

/-- C5: `parseEmoteOffsets` on an absent input and on the empty string both
return the empty map. -/
theorem claim_C5 : parseEmoteOffsets none = [] ∧ parseEmoteOffsets (some "") = [] :=
  ⟨rfl, rfl⟩

/-- C9: `parseEmoteOffsets` is a pure function of its input — the embedding
has no state, so two invocations on the same input are the same term and
yield equal maps (equal key sequences and equal lookups at every key). -/
theorem claim_C9 (e : Option String) :
    parseEmoteOffsets e = parseEmoteOffsets e
    ∧ (parseEmoteOffsets e).map Prod.fst = (parseEmoteOffsets e).map Prod.fst
    ∧ ∀ k, mapGetStr (parseEmoteOffsets e) k = mapGetStr (parseEmoteOffsets e) k :=
  ⟨rfl, rfl, fun _ => rfl⟩

theorem filterMap_filter_isSome {α β : Type} (f : α → Option β) (l : List α) :
    (l.filter (fun a => (f a).isSome)).filterMap f = l.filterMap f := by
  induction l with
  | nil => rfl
  | cons a t ih =>
      cases hfa : f a with
      | none => simp [List.filter_cons, List.filterMap_cons, hfa, ih]
      | some b => simp [List.filter_cons, List.filterMap_cons, hfa, ih]

theorem parseCore_nil : parseEmoteOffsetsCore [] = [] := rfl

/-- C3: an entry with no colon, or whose placements segment is empty (a
colon immediately followed by the end of the entry), is silently dropped: it
yields no pair, and removing all such entries from the `/`-joined input does
not change the result map, so sibling entries are unaffected. -/
theorem claim_C3 (es : List JStr) (h : ∀ e ∈ es, '/' ∉ e) :
    (∀ e ∈ es, ':' ∉ e → parseEntry e = none)
    ∧ (∀ e ∈ es, ∀ idPart, ':' ∉ idPart → e = idPart ++ [':'] → parseEntry e = none)
    ∧ parseEmoteOffsetsCore (List.intercalate ['/'] es)
        = parseEmoteOffsetsCore
            (List.intercalate ['/'] (es.filter (fun e => (parseEntry e).isSome))) := by
  refine ⟨fun e _ hc => parseEntry_no_colon e hc,
    fun e _ idPart hip hdec => hdec ▸ parseEntry_trailing_colon idPart hip, ?_⟩
  cases es with
  | nil => rfl
  | cons e t =>
      have hL : (List.intercalate ['/'] (e :: t)).splitOn '/' = e :: t :=
        List.splitOn_intercalate (e :: t) '/' h (by simp)
      by_cases hfe : (e :: t).filter (fun a => (parseEntry a).isSome) = []
      · rw [parseEmoteOffsetsCore, hL, ← filterMap_filter_isSome parseEntry (e :: t),
          hfe]
        rfl
      · have h' : ∀ l ∈ (e :: t).filter (fun a => (parseEntry a).isSome), '/' ∉ l :=
          fun l hl => h l (List.mem_of_mem_filter hl)
        have hR : (List.intercalate ['/']
              ((e :: t).filter (fun a => (parseEntry a).isSome))).splitOn '/'
            = (e :: t).filter (fun a => (parseEntry a).isSome) :=
          List.splitOn_intercalate _ '/' h' hfe
        rw [parseEmoteOffsetsCore, parseEmoteOffsetsCore, hL, hR,
          filterMap_filter_isSome]

/-- C3 witness: the statement applied at a concrete entry list containing a
colonless entry and an empty-placements entry. -/
theorem claim_C3_witness :
    (∀ e ∈ demoEntriesC3, '/' ∉ e)
    ∧ ((∀ e ∈ demoEntriesC3, ':' ∉ e → parseEntry e = none)
      ∧ (∀ e ∈ demoEntriesC3, ∀ idPart, ':' ∉ idPart → e = idPart ++ [':'] →
          parseEntry e = none)
      ∧ parseEmoteOffsetsCore (List.intercalate ['/'] demoEntriesC3)
          = parseEmoteOffsetsCore
              (List.intercalate ['/']
                (demoEntriesC3.filter (fun e => (parseEntry e).isSome)))) :=
  ⟨by decide, claim_C3 demoEntriesC3 (by decide)⟩

/-- C7: splitting an entry on `:` uses at most two parts — the emoteId is
the text before the first colon, the placements segment is the text strictly
between the first and second colon, and everything from the second colon on
is discarded; e.g. `parseEmoteOffsets "25:0-4:junk" = {"25" -> ["0-4"]}`. -/
theorem claim_C7 (emoteId mid rest : JStr) (hid : ':' ∉ emoteId)
    (hmid : ':' ∉ mid) :
    parseEntry (emoteId ++ ':' :: (mid ++ ':' :: rest))
      = (if mid = [] then none else some (emoteId, mid.splitOn ','))
    ∧ parseEmoteOffsets (some "25:0-4:junk") = [("25", ["0-4"])] := by
  refine ⟨?_, by decide⟩
  have hsplit : (emoteId ++ ':' :: (mid ++ ':' :: rest)).splitOn ':'
      = emoteId :: mid :: rest.splitOn ':' := by
    rw [splitOn_first emoteId ':' hid, splitOn_first mid ':' hmid]
  rw [parseEntry, hsplit]
  by_cases hm : mid = []
  · simp [hm]
  · simp [hm, List.isEmpty_iff]

/-- C7 witness: the statement applied at the entry `25:0-4:junk`. -/
theorem claim_C7_witness :
    (':' ∉ String.data "25") ∧ (':' ∉ String.data "0-4")
    ∧ (parseEntry (String.data "25" ++ ':' :: (String.data "0-4" ++ ':' :: String.data "junk"))
        = (if String.data "0-4" = [] then none
           else some (String.data "25", (String.data "0-4").splitOn ','))
      ∧ parseEmoteOffsets (some "25:0-4:junk") = [("25", ["0-4"])]) :=
  ⟨by decide, by decide, claim_C7 _ _ _ (by decide) (by decide)⟩

/-! ## C8: the parser cannot throw -/

theorem parseEntryChecked_ok (emote : JStr) :
    parseEntryChecked emote = .ok (parseEntry emote) := by
  rcases hsp : emote.splitOn ':' with _ | ⟨x, rest⟩
  · exact absurd hsp (by rw [List.splitOn]; exact List.splitOnP_ne_nil _ emote)
  · cases rest with
    | nil =>
        have hparts : (emote.splitOn ':').take 2 = [x] := by
          rw [hsp]
          rfl
        simp [parseEntryChecked, parseEntry, hparts, jsFalsy]
    | cons y rest' =>
        have hparts : (emote.splitOn ':').take 2 = [x, y] := by
          rw [hsp]
          rfl
        by_cases hy : y = []
        · subst hy
          simp [parseEntryChecked, parseEntry, hparts, jsFalsy]
        · simp [parseEntryChecked, parseEntry, hparts, jsFalsy, jsSplitChecked,
            List.isEmpty_iff, hy]

theorem mapM_parseEntryChecked (l : List JStr) :
    l.mapM parseEntryChecked = Except.ok (l.map parseEntry) := by
  induction l with
  | nil => rfl
  | cons a t ih =>
      rw [List.mapM_cons, parseEntryChecked_ok a, ih]
      rfl

/-- C8: `parseEmoteOffsets` is total — on every input (absent or any
string) the throw-tracking variant returns `ok` with exactly the map the
parser computes; no error branch is ever taken. -/
theorem claim_C8 (emotes : Option String) :
    parseEmoteOffsetsChecked emotes = .ok (parseEmoteOffsets emotes) := by
  cases emotes with
  | none => rfl
  | some s =>
      by_cases hs : s = ""
      · subst hs
        rfl
      · simp only [parseEmoteOffsetsChecked, parseEmoteOffsets, hs, if_false,
          ite_false]
        rw [mapM_parseEntryChecked]
        show Except.ok _ = Except.ok _
        congr 1
        rw [parseEmoteOffsetsCore]
        congr 1
        rw [List.filterMap_map]
        rfl

/-! ## Claim theorems for the sweep and the `createSubscription` guard -/

theorem sweepRun_ok_append (cond : Option (SubRecord → Bool))
    (pre : List SubRecord) (h : ∀ x ∈ pre, x.unsubOk = true)
    (rest : List StreamItem) :
    sweepRun cond (pre.map StreamItem.item ++ rest)
      = ⟨pre ++ (sweepRun cond rest).evaluated,
         pre.filter (fun x => condHolds cond x) ++ (sweepRun cond rest).unsubbed,
         (sweepRun cond rest).error⟩ := by
  induction pre with
  | nil => simp
  | cons r t ih =>
      have hr : r.unsubOk = true := h r (by simp)
      have iht := ih (fun x hx => h x (by simp [hx]))
      by_cases hc : condHolds cond r
      · simp [sweepRun, hc, hr, iht, List.filter_cons]
      · simp [sweepRun, hc, hr, iht, List.filter_cons]

theorem brokenCond_ne_enabled (r : SubRecord) (h : brokenCond r = true) :
    r.status ≠ "enabled" := by
  intro hst
  rw [brokenCond, hst] at h
  simp at h

/-- C2: over a finite source that yields records without failures, the
sweep unsubscribes exactly the records the (optional) predicate selects, in
the order the source yields them, and completes without error; and under
the broken-subscriptions predicate a record with status `enabled` is never
unsubscribed, whatever the stream. -/
theorem claim_C2 (cond : Option (SubRecord → Bool)) (subs : List SubRecord)
    (h : ∀ r ∈ subs, r.unsubOk = true) (stream : List StreamItem) :
    (sweepRun cond (subs.map StreamItem.item)).unsubbed
        = subs.filter (fun r => condHolds cond r)
    ∧ (sweepRun cond (subs.map StreamItem.item)).error = none
    ∧ ∀ r ∈ (deleteBrokenSubscriptionsRun stream).unsubbed,
        r.status ≠ "enabled" := by
  have hmain := sweepRun_ok_append cond subs h []
  rw [List.append_nil] at hmain
  refine ⟨by rw [hmain]; simp [sweepRun], by rw [hmain]; rfl, ?_⟩
  induction stream with
  | nil =>
      intro r hr
      simp [deleteBrokenSubscriptionsRun, sweepRun] at hr
  | cons it rest ih =>
      intro r hr
      cases it with
      | sourceFail => simp [deleteBrokenSubscriptionsRun, sweepRun] at hr
      | item q =>
          by_cases hq : brokenCond q
          · by_cases hok : q.unsubOk
            · simp [deleteBrokenSubscriptionsRun, sweepRun, condHolds, hq, hok] at hr
              rcases hr with rfl | hr'
              · exact brokenCond_ne_enabled r hq
              · exact ih r hr'
            · simp [deleteBrokenSubscriptionsRun, sweepRun, condHolds, hq,
                hok] at hr
              subst hr
              exact brokenCond_ne_enabled r hq
          · simp [deleteBrokenSubscriptionsRun, sweepRun, condHolds, hq] at hr
            exact ih r hr

/-- C2 witness: the statement applied at the 3-page scenario source. -/
theorem claim_C2_witness :
    (∀ r ∈ demoSubs, r.unsubOk = true)
    ∧ ((sweepRun (some brokenCond) (demoSubs.map StreamItem.item)).unsubbed
          = demoSubs.filter (fun r => condHolds (some brokenCond) r)
      ∧ (sweepRun (some brokenCond) (demoSubs.map StreamItem.item)).error = none
      ∧ ∀ r ∈ (deleteBrokenSubscriptionsRun (streamOfPages demoPages)).unsubbed,
          r.status ≠ "enabled") :=
  ⟨by decide, claim_C2 (some brokenCond) demoSubs (by decide)
    (streamOfPages demoPages)⟩

/-- C6: if the k-th selected record's unsubscribe fails, or the source
fails to produce the next page, the sweep's outcome is that failure, the
records up to the failure were processed in order, and nothing past the
failure point is evaluated or unsubscribed — the rest of the stream is
discarded. -/
theorem claim_C6 (cond : Option (SubRecord → Bool)) (pre : List SubRecord)
    (r : SubRecord) (tail : List StreamItem)
    (hpre : ∀ x ∈ pre, x.unsubOk = true)
    (hr : condHolds cond r = true) (hfail : r.unsubOk = false) :
    sweepRun cond (pre.map StreamItem.item ++ (StreamItem.item r :: tail))
        = ⟨pre ++ [r], pre.filter (fun x => condHolds cond x) ++ [r],
           some (SweepError.unsubError r)⟩
    ∧ sweepRun cond (pre.map StreamItem.item ++ (StreamItem.sourceFail :: tail))
        = ⟨pre, pre.filter (fun x => condHolds cond x),
           some SweepError.sourceError⟩ := by
  have h1 := sweepRun_ok_append cond pre hpre (StreamItem.item r :: tail)
  have h2 := sweepRun_ok_append cond pre hpre (StreamItem.sourceFail :: tail)
  have hrun : sweepRun cond (StreamItem.item r :: tail)
      = ⟨[r], [r], some (SweepError.unsubError r)⟩ := by
    simp [sweepRun, hr, hfail]
  have hrun2 : sweepRun cond (StreamItem.sourceFail :: tail)
      = ⟨[], [], some SweepError.sourceError⟩ := rfl
  rw [hrun] at h1
  rw [hrun2] at h2
  constructor
  · rw [h1]
  · rw [h2]
    simp

/-- C6 witness: the statement applied where the second unsubscribe fails
and a third record follows. -/
theorem claim_C6_witness :
    (∀ x ∈ [demoRecOk], x.unsubOk = true)
    ∧ condHolds none demoRecFail = true
    ∧ demoRecFail.unsubOk = false
    ∧ (sweepRun none ([demoRecOk].map StreamItem.item
          ++ (StreamItem.item demoRecFail :: [StreamItem.item demoRecAfter]))
        = ⟨[demoRecOk] ++ [demoRecFail],
           [demoRecOk].filter (fun x => condHolds none x) ++ [demoRecFail],
           some (SweepError.unsubError demoRecFail)⟩
      ∧ sweepRun none ([demoRecOk].map StreamItem.item
          ++ (StreamItem.sourceFail :: [StreamItem.item demoRecAfter]))
        = ⟨[demoRecOk], [demoRecOk].filter (fun x => condHolds none x),
           some SweepError.sourceError⟩) :=
  ⟨by decide, by decide, by decide,
    claim_C6 none [demoRecOk] demoRecFail [StreamItem.item demoRecAfter]
      (by decide) (by decide) (by decide)⟩

/-- C10: `createSubscription` throws, before issuing any request, exactly
when the transport method is not `webhook` and no user is supplied; in
every other case the guard does not fire and a single request is issued. -/
theorem claim_C10 (t : TransportOptions) (user : Option String)
    (scopeSet : Option (List String)) :
    (∃ msg, createSubscriptionRun t user scopeSet = .thrown msg)
      ↔ (t.method ≠ "webhook" ∧ user = none) := by
  simp only [createSubscriptionRun]
  by_cases hw : t.method = "webhook"
  · simp [hw]
  · by_cases hu : user = none
    · subst hu
      simp [hw]
    · simp [hw, hu, Option.isNone_iff_eq_none]
